import Mathlib

/-!
Verification of the `physical-xml.c` module of virt-p2v: a shallow
embedding of `generate_physical_xml`, `map_interface_to_network` and the
drive-naming helper, together with theorems checking the module's
specification.

Modelling conventions:
* C strings are Lean `String`s; `char` access `s[k]` becomes `s.data.get? k`,
  `strlen` becomes `s.data.length` (one `Char` per C byte).
* The XML writer calls are modelled by building the document tree that the
  writer serialises; the emitted file is a function of this tree.
* Reading a host file (`g_file_get_contents`) is modelled by an oracle
  `fs : String → Option String` mapping a path to its contents, `none` on
  any read failure.
-/

/-- An XML node as produced by the libxml2 writer calls: an element with an
ordered attribute list and ordered children, character data, or a comment. -/
inductive Xml where
  | elem (name : String) (attrs : List (String × String)) (children : List Xml)
  | text (s : String)
  | comment (s : String)

/-- `struct cpu_config` fields used by this module (`p2v.h`): `vendor` and
`model` are nullable C strings, the topology counts are `unsigned` with 0
meaning unspecified, plus the three feature booleans. -/
structure CpuConfig where
  vendor : Option String
  model : Option String
  sockets : Nat
  cores : Nat
  threads : Nat
  acpi : Bool
  apic : Bool
  pae : Bool

/-- The `basis` field of `struct rtc_config`. -/
inductive RtcBasis where
  | unknown
  | utc
  | localtime
deriving DecidableEq

/-- `struct rtc_config`: clock basis and signed offset in seconds. -/
structure RtcConfig where
  basis : RtcBasis
  offset : Int

/-- The fields of `struct config` consumed by `generate_physical_xml`.
`disks` is the NULL-terminated string array `config->disks`; `removable`,
`interfaces` and `network_map` are nullable arrays, hence `Option`. -/
structure Config where
  guestname : String
  memory : Nat
  vcpus : Nat
  cpu : CpuConfig
  rtc : RtcConfig
  disks : List String
  removable : Option (List String)
  interfaces : Option (List String)
  network_map : Option (List String)

/-- `struct data_conn`: only `nbd_remote_port` (a C `int`) is consumed. -/
structure DataConn where
  nbd_remote_port : Int

/-! ## The network resolver (`map_interface_to_network`) -/

/-- The loop body of `map_interface_to_network`.  For each entry: if
`strchr (entry, ':')` is NULL the entry is a catch-all and is returned;
otherwise the entry matches when `STRPREFIX (entry, interface)` holds
(`strncmp (entry, interface, strlen (interface)) == 0`, i.e. the interface
is a string prefix of the entry) and `entry[len] == ':'` where
`len = strlen (interface)`; on a match `&entry[len+1]` is returned. -/
def mapLoop : List String → String → String
  | [], _ => "default"
  | e :: rest, iface =>
    if e.data.contains ':' = false then e
    else if iface.data.isPrefixOf e.data ∧ e.data.get? iface.data.length = some ':' then
      String.mk (e.data.drop (iface.data.length + 1))
    else mapLoop rest iface

/-- `map_interface_to_network`: `"default"` when `config->network_map` is
NULL, otherwise the first-match scan of the entries. -/
def map_interface_to_network (config : Config) (interface : String) : String :=
  match config.network_map with
  | none => "default"
  | some entries => mapLoop entries interface

/-- The resolver algorithm exactly as the specification words it, for
comparison with `mapLoop`: an entry containing `':'` is split at the
first `':'` into `(prefix, suffix)` and matches when the prefix equals the
interface name exactly, returning the suffix. -/
def specResolver : List String → String → String
  | [], _ => "default"
  | e :: rest, iface =>
    if e.data.contains ':' = false then e
    else if e.data.takeWhile (fun c => c ≠ ':') = iface.data then
      String.mk ((e.data.dropWhile (fun c => c ≠ ':')).drop 1)
    else specResolver rest iface

/-- The amended resolver rule: an entry containing `':'` matches when it
begins with the interface name immediately followed by `':'` (the first
`strlen (interface)` characters equal the interface name and the next
character is `':'`), and everything after that colon is returned. -/
def amendedResolver : List String → String → String
  | [], _ => "default"
  | e :: rest, iface =>
    if e.data.contains ':' = false then e
    else if e.data.take iface.data.length = iface.data ∧
            e.data.get? iface.data.length = some ':' then
      String.mk (e.data.drop (iface.data.length + 1))
    else amendedResolver rest iface

/-! ## The drive namer (`guestfs_int_drive_name`) -/

/-- Modelled from the spec: the body of `guestfs_int_drive_name` is not in
this module (only its call site is); the spec gives its algorithm as
"repeatedly take `i mod 26` → letter, then set `i = i/26 - 1`, stop when
negative; reverse the letters".  This produces the letter values
least-significant first; `i/26 - 1` is negative exactly when `i < 26`. -/
def driveNameAux (i : Nat) : List Nat :=
  if h : i < 26 then [i]
  else i % 26 :: driveNameAux (i / 26 - 1)
termination_by i
decreasing_by
  have hd : i / 26 < i := Nat.div_lt_self (by omega) (by omega)
  omega

/-- Letter value `d` (0–25) as the character `'a' + d`. -/
def toLetter (d : Nat) : Char := Char.ofNat (97 + d)

/-- Render a least-significant-first list of letter values as the string of
letters, most significant first (the "reverse the letters" step). -/
def digitsToString (l : List Nat) : String :=
  String.mk (l.reverse.map toLetter)

/-- The drive-name suffix for disk index `i`: `"a"`, `"b"`, …, `"z"`,
`"aa"`, … -/
def driveName (i : Nat) : String :=
  digitsToString (driveNameAux i)

/-- Increment a least-significant-first list of letter values by one:
`a`→`b`, …, and `z` carries (`z`→`a` with carry, a carry past the last
letter prepends an `a`). -/
def incDigits : List Nat → List Nat
  | [] => [0]
  | d :: rest => if d = 25 then 0 :: incDigits rest else (d + 1) :: rest

/-- The letter values of the `i`-th term of the infinite sequence
a, b, …, z, aa, ab, …: start at `a` and increment `i` times. -/
def seqDigits : Nat → List Nat
  | 0 => [0]
  | n + 1 => incDigits (seqDigits n)

/-- The `i`-th term of the infinite sequence a, b, …, z, aa, ab, …, az,
ba, …, zz, aaa, … (0-based). -/
def seqTerm (i : Nat) : String :=
  digitsToString (seqDigits i)

/-! ## The document composer (`generate_physical_xml`) -/

/-- MAC address lookup for one interface: read
`/sys/class/net/<iface>/address` through the filesystem oracle; on success
remove one trailing newline if present (`if (len > 0 && mac[len-1] == '\n')
mac[len-1] = '\0';`). -/
def stripTrailingNewline (s : String) : String :=
  match s.data.getLast? with
  | some c => if c = '\n' then String.mk s.data.dropLast else s
  | none => s

/-- The modelled `g_file_get_contents` call plus newline stripping:
`none` when the read fails (non-fatal), otherwise the stripped contents. -/
def macRead (fs : String → Option String) (iface : String) : Option String :=
  (fs ("/sys/class/net/" ++ iface ++ "/address")).map stripTrailingNewline

/-- The `target_dev` computation for disk `i`: names beginning with `/` get
`"sd" + drive name`; otherwise the name is used verbatim when
`strlen (disks[i]) <= sizeof (target_dev) - 1` (63), else the `goto
target_sd` fallback applies. -/
def target_dev (i : Nat) (disk : String) : String :=
  if disk.data.head? = some '/' then "sd" ++ driveName i
  else if disk.data.length ≤ 63 then disk
  else "sd" ++ driveName i

/-- The `<disk device="disk">` element emitted for disk index `i`. -/
def diskElem (i : Nat) (disk : String) (conn : DataConn) : Xml :=
  Xml.elem "disk" [("type", "network"), ("device", "disk")]
    [Xml.elem "driver" [("name", "qemu"), ("type", "raw")] [],
     Xml.elem "source" [("protocol", "nbd")]
       [Xml.elem "host" [("name", "localhost"),
                         ("port", toString conn.nbd_remote_port)] []],
     Xml.elem "target" [("dev", target_dev i disk)] []]

/-- The loop over `config->disks`, carrying the running index `i`. -/
def diskElems (conns : Nat → DataConn) : Nat → List String → List Xml
  | _, [] => []
  | i, d :: rest => diskElem i d (conns i) :: diskElems conns (i + 1) rest

/-- The `<disk device="cdrom">` elements for `config->removable` (skipped
entirely when the array is NULL). -/
def removableElems : Option (List String) → List Xml
  | none => []
  | some rs =>
    rs.map fun r =>
      Xml.elem "disk" [("type", "network"), ("device", "cdrom")]
        [Xml.elem "driver" [("name", "qemu"), ("type", "raw")] [],
         Xml.elem "target" [("dev", r)] []]

/-- The `<interface>` element for one interface: source network from the
resolver, target dev, and a `<mac>` child only when the address file was
readable. -/
def interfaceElem (config : Config) (fs : String → Option String)
    (iface : String) : Xml :=
  Xml.elem "interface" [("type", "network")]
    ([Xml.elem "source" [("network", map_interface_to_network config iface)] [],
      Xml.elem "target" [("dev", iface)] []] ++
     match macRead fs iface with
     | some mac => [Xml.elem "mac" [("address", mac)] []]
     | none => [])

/-- The `<interface>` elements for `config->interfaces` (skipped entirely
when the array is NULL). -/
def interfaceElems (config : Config) (fs : String → Option String) :
    Option (List String) → List Xml
  | none => []
  | some ifs => ifs.map (interfaceElem config fs)

/-- The children of `<devices>`: fixed disks, then removable media, then
interfaces. -/
def devicesChildren (config : Config) (conns : Nat → DataConn)
    (fs : String → Option String) : List Xml :=
  diskElems conns 0 config.disks ++ removableElems config.removable ++
    interfaceElems config fs config.interfaces

/-- The `<cpu>` element, emitted only when any of vendor, model, sockets,
cores, threads is set; `<topology>` carries exactly the nonzero counts. -/
def cpuElems (cpu : CpuConfig) : List Xml :=
  if cpu.vendor.isSome ∨ cpu.model.isSome ∨
      cpu.sockets ≠ 0 ∨ cpu.cores ≠ 0 ∨ cpu.threads ≠ 0 then
    [Xml.elem "cpu" [("match", "minimum")]
      ((match cpu.vendor with
        | some v => [Xml.elem "vendor" [] [Xml.text v]]
        | none => []) ++
       (match cpu.model with
        | some m => [Xml.elem "model" [("fallback", "allow")] [Xml.text m]]
        | none => []) ++
       (if cpu.sockets ≠ 0 ∨ cpu.cores ≠ 0 ∨ cpu.threads ≠ 0 then
          [Xml.elem "topology"
            ((if cpu.sockets ≠ 0 then [("sockets", toString cpu.sockets)] else []) ++
             (if cpu.cores ≠ 0 then [("cores", toString cpu.cores)] else []) ++
             (if cpu.threads ≠ 0 then [("threads", toString cpu.threads)] else []))
            []]
        else []))]
  else []

/-- The `<clock>` element per `config->rtc.basis`: nothing for UNKNOWN,
`offset="utc"` or variable/adjustment for UTC, `offset="localtime"` for
LOCALTIME. -/
def clockElems (rtc : RtcConfig) : List Xml :=
  match rtc.basis with
  | .unknown => []
  | .utc =>
    [Xml.elem "clock"
      (if rtc.offset = 0 then [("offset", "utc")]
       else [("offset", "variable"), ("basis", "utc"),
             ("adjustment", toString rtc.offset)]) []]
  | .localtime => [Xml.elem "clock" [("offset", "localtime")] []]

/-- The `<features>` children: the subset of acpi, apic, pae that is set,
in that order. -/
def featureElems (cpu : CpuConfig) : List Xml :=
  (if cpu.acpi then [Xml.elem "acpi" [] []] else []) ++
  (if cpu.apic then [Xml.elem "apic" [] []] else []) ++
  (if cpu.pae then [Xml.elem "pae" [] []] else [])

/-- The children of `<domain>`, in emission order. -/
def domainChildren (config : Config) (conns : Nat → DataConn)
    (fs : String → Option String) (host_cpu : String) : List Xml :=
  [Xml.elem "name" [] [Xml.text config.guestname],
   Xml.elem "memory" [("unit", "KiB")] [Xml.text (toString (config.memory / 1024))],
   Xml.elem "currentMemory" [("unit", "KiB")]
     [Xml.text (toString (config.memory / 1024))],
   Xml.elem "vcpu" [] [Xml.text (toString config.vcpus)]] ++
  cpuElems config.cpu ++ clockElems config.rtc ++
  [Xml.elem "os" [] [Xml.elem "type" [("arch", host_cpu)] [Xml.text "hvm"]],
   Xml.elem "features" [] (featureElems config.cpu),
   Xml.elem "devices" [] (devicesChildren config conns fs)]

/-- The whole document `generate_physical_xml` writes: the two top-level
comments followed by the `<domain>` element.  The bytes of the output file
are a fixed serialisation (two-space indented UTF-8) of this list. -/
def generate_physical_xml (config : Config) (conns : Nat → DataConn)
    (fs : String → Option String) (host_cpu progname version : String) :
    List Xml :=
  [Xml.comment (" " ++ progname ++ " " ++ version ++ " "),
   Xml.comment " NOTE!\n\n  This libvirt XML is generated by the virt-p2v front end, in\n  order to communicate with the backend virt-v2v process running\n  on the conversion server.  It is a minimal description of the\n  physical machine.  If the target of the conversion is libvirt,\n  then virt-v2v will generate the real target libvirt XML, which\n  has only a little to do with the XML in this file.\n\n  TL;DR: Don\x27t try to load this XML into libvirt. ",
   Xml.elem "domain" [("type", "physical")]
     (domainChildren config conns fs host_cpu)]

/-! ## Helpers for stating document-level claims -/

/-- Whether a node is an element with the given name. -/
def isElemNamed (n : String) : Xml → Bool
  | .elem m _ _ => m == n
  | _ => false

/-- The top-level children of a node list that are elements named `n`. -/
def topElemsNamed (n : String) (l : List Xml) : List Xml :=
  l.filter (isElemNamed n)

/-- Whether a node is a `<disk device="disk">` element. -/
def isDiskDevice : Xml → Bool
  | .elem m attrs _ => m == "disk" && attrs.contains ("device", "disk")
  | _ => false

/-! ## Lemmas about the network resolver -/

/-- For an entry containing a colon and an interface name containing none,
the source's match condition (interface is a string prefix of the entry and
the next character is a colon) coincides with the spec's condition (the part
of the entry before the first colon equals the interface name). -/
lemma resolver_cond_iff : ∀ (E : List Char), ':' ∈ E → ∀ (L : List Char), ':' ∉ L →
    ((L.isPrefixOf E ∧ E.get? L.length = some ':') ↔
      E.takeWhile (fun c => c ≠ ':') = L) := by
  intro E
  induction E with
  | nil => intro hcol; exact absurd hcol (List.not_mem_nil _)
  | cons c E' ih =>
    intro hcol L hL
    by_cases hc : c = ':'
    · subst hc
      cases L with
      | nil => simp [List.isPrefixOf, List.takeWhile_cons]
      | cons a L' =>
        have ha : a ≠ ':' := fun h => hL (h ▸ List.mem_cons_self a L')
        simp [List.isPrefixOf, List.takeWhile_cons, ha, Ne.symm ha]
    · have hcol' : ':' ∈ E' := by
        rcases List.mem_cons.mp hcol with h | h
        · exact absurd h.symm hc
        · exact h
      cases L with
      | nil =>
        simp [List.isPrefixOf, List.takeWhile_cons, hc]
      | cons a L' =>
        have hL' : ':' ∉ L' := fun h => hL (List.mem_cons_of_mem a h)
        by_cases hac : a = c
        · subst hac
          have := ih hcol' L' hL'
          simpa [List.isPrefixOf, hc, List.takeWhile_cons] using this
        · simp [List.isPrefixOf, hc, hac, Ne.symm hac, List.takeWhile_cons]

/-- When the source's match condition holds for a colon-free interface name,
the returned tail of the entry equals the spec's "everything after the first
colon". -/
lemma resolver_result_eq : ∀ (L E : List Char), ':' ∉ L → L.isPrefixOf E →
    E.get? L.length = some ':' →
    E.drop (L.length + 1) = (E.dropWhile (fun c => c ≠ ':')).drop 1 := by
  intro L
  induction L with
  | nil =>
    intro E _ _ hg
    cases E with
    | nil => simp at hg
    | cons c E' =>
      simp only [List.length_nil, List.get?_cons_zero, Option.some.injEq] at hg
      subst hg
      simp [List.dropWhile_cons]
  | cons a L' ih =>
    intro E hL hp hg
    cases E with
    | nil => simp [List.isPrefixOf] at hp
    | cons c E' =>
      have hac : a = c ∧ L'.isPrefixOf E' := by
        simpa [List.isPrefixOf] using hp
      have ha : a ≠ ':' := fun h => hL (h ▸ List.mem_cons_self a L')
      have hc : ¬ c = ':' := hac.1 ▸ ha
      have hL'' : ':' ∉ L' := fun h => hL (List.mem_cons_of_mem a h)
      simp only [List.length_cons, List.get?_cons_succ] at hg
      have := ih E' hL'' hac.2 hg
      simpa [List.dropWhile_cons, hc] using this

/-- For interface names not containing a colon, the source resolver loop
computes exactly what the spec's first-colon-split algorithm computes. -/
lemma mapLoop_eq_specResolver (entries : List String) (iface : String)
    (h : ':' ∉ iface.data) : mapLoop entries iface = specResolver entries iface := by
  induction entries with
  | nil => rfl
  | cons e rest ih =>
    unfold mapLoop specResolver
    by_cases hc : e.data.contains ':' = false
    · rw [if_pos hc, if_pos hc]
    · have hcol : ':' ∈ e.data := by
        have := Bool.of_not_eq_false hc
        simpa using this
      rw [if_neg hc, if_neg hc]
      by_cases hm : (iface.data.isPrefixOf e.data ∧
          e.data.get? iface.data.length = some ':')
      · rw [if_pos hm, if_pos ((resolver_cond_iff e.data hcol iface.data h).mp hm)]
        exact congrArg String.mk (resolver_result_eq _ _ h hm.1 hm.2)
      · rw [if_neg hm,
          if_neg (fun hs => hm ((resolver_cond_iff e.data hcol iface.data h).mpr hs))]
        exact ih

/-- A small concrete configuration builder used by concrete instances. -/
def mkConfig (disks : List String) (nm : Option (List String))
    (ifs : Option (List String)) : Config where
  guestname := "guest"
  memory := 1048576
  vcpus := 1
  cpu := ⟨none, none, 0, 0, 0, false, false, false⟩
  rtc := ⟨.unknown, 0⟩
  disks := disks
  removable := none
  interfaces := ifs
  network_map := nm

/-- The source resolver loop computes the amended rule for every interface
name. -/
lemma mapLoop_eq_amendedResolver (entries : List String) (iface : String) :
    mapLoop entries iface = amendedResolver entries iface := by
  induction entries with
  | nil => rfl
  | cons e rest ih =>
    unfold mapLoop amendedResolver
    have hiff : (iface.data.isPrefixOf e.data = true) ↔
        e.data.take iface.data.length = iface.data := by
      rw [List.isPrefixOf_iff_prefix, List.prefix_iff_eq_take, eq_comm]
    by_cases hc : e.data.contains ':' = false
    · rw [if_pos hc, if_pos hc]
    · rw [if_neg hc, if_neg hc]
      by_cases hm : (iface.data.isPrefixOf e.data ∧
          e.data.get? iface.data.length = some ':')
      · rw [if_pos hm, if_pos ⟨hiff.mp hm.1, hm.2⟩]
      · rw [if_neg hm, if_neg (fun hs => hm ⟨hiff.mpr hs.1, hs.2⟩)]
        exact ih

/-! ## Claim C1: the network resolver -/

/-- C1 counterexample: for the interface name `"a:b"` (which itself contains
a colon) and the map `["a:b:c"]`, the code's resolver matches the entry by
the string-prefix test and returns `"c"`, whereas the claim's
split-at-first-colon algorithm finds prefix `"a" ≠ "a:b"` and returns
`"default"`.  The claim as stated is therefore false at this input. -/
theorem C1_counterexample :
    map_interface_to_network (mkConfig [] (some ["a:b:c"]) none) "a:b" = "c" ∧
    specResolver ["a:b:c"] "a:b" = "default" ∧ ("c" : String) ≠ "default" :=
  ⟨rfl, rfl, by decide⟩

/-- C1 (amended): the resolver returns `"default"` when the map is absent or
empty; otherwise, scanning entries first-match-wins, a colon-free entry is
returned as a catch-all, and an entry containing a colon matches when it
begins with the interface name immediately followed by `':'`, in which case
everything after that colon is returned; `"default"` if nothing matches.
For interface names not containing a colon — in particular for the
spec's `":NAME"` edge case, which matches only the empty name — this
coincides with the claim's split-at-first-colon, exact-prefix-match
algorithm. -/
theorem C1_network_resolver_amended :
    (∀ (cfg : Config) (iface : String),
      map_interface_to_network cfg iface =
        match cfg.network_map with
        | none => "default"
        | some entries => amendedResolver entries iface) ∧
    (∀ (cfg : Config) (iface : String), ':' ∉ iface.data →
      map_interface_to_network cfg iface =
        match cfg.network_map with
        | none => "default"
        | some entries => specResolver entries iface) := by
  constructor
  · intro cfg iface
    unfold map_interface_to_network
    cases cfg.network_map with
    | none => rfl
    | some entries => exact mapLoop_eq_amendedResolver entries iface
  · intro cfg iface h
    unfold map_interface_to_network
    cases cfg.network_map with
    | none => rfl
    | some entries => exact mapLoop_eq_specResolver entries iface h

/-- C1 witness: the amended theorem applied to the concrete map
`["eth0:prod", "backup"]` and the colon-free interface name `"eth1"`,
which resolves to the catch-all `"backup"`. -/
theorem C1_network_resolver_amended_witness :
    (':' ∉ ("eth1" : String).data) ∧
    map_interface_to_network (mkConfig [] (some ["eth0:prod", "backup"]) none)
        "eth1" = specResolver ["eth0:prod", "backup"] "eth1" ∧
    specResolver ["eth0:prod", "backup"] "eth1" = "backup" :=
  ⟨by decide,
   C1_network_resolver_amended.2 (mkConfig [] (some ["eth0:prod", "backup"]) none)
     "eth1" (by decide),
   rfl⟩

/-! ## Lemmas about the drive namer -/

/-- Decode a least-significant-first letter-value list back to its index:
the inverse of `driveNameAux`. -/
def digitsVal : List Nat → Nat
  | [] => 0
  | [d] => d
  | d :: rest => d + 26 * (digitsVal rest + 1)

lemma driveNameAux_ne_nil (i : Nat) : driveNameAux i ≠ [] := by
  rw [driveNameAux]
  split <;> simp

lemma driveNameAux_lt (i : Nat) : ∀ d ∈ driveNameAux i, d < 26 := by
  induction i using Nat.strong_induction_on with
  | _ i ih =>
    rw [driveNameAux]
    split
    next h =>
      intro d hd
      simp only [List.mem_singleton] at hd
      omega
    next h =>
      intro d hd
      rcases List.mem_cons.mp hd with h1 | h1
      · subst h1; exact Nat.mod_lt _ (by omega)
      · have hsmall : i / 26 - 1 < i := by
          have : i / 26 < i := Nat.div_lt_self (by omega) (by omega)
          omega
        exact ih _ hsmall d h1

lemma digitsVal_driveNameAux (i : Nat) : digitsVal (driveNameAux i) = i := by
  induction i using Nat.strong_induction_on with
  | _ i ih =>
    rw [driveNameAux]
    split
    next h => rfl
    next h =>
      have hsmall : i / 26 - 1 < i := by
        have : i / 26 < i := Nat.div_lt_self (by omega) (by omega)
        omega
      have hrec := ih _ hsmall
      obtain ⟨d, t, hdt⟩ := List.exists_cons_of_ne_nil (driveNameAux_ne_nil (i / 26 - 1))
      rw [hdt] at hrec ⊢
      show i % 26 + 26 * (digitsVal (d :: t) + 1) = i
      rw [hrec]
      omega

lemma driveNameAux_injective {i j : Nat} (h : driveNameAux i = driveNameAux j) :
    i = j := by
  have := digitsVal_driveNameAux i
  rw [h, digitsVal_driveNameAux] at this
  omega

/-- Incrementing the letter values of index `i` gives the letter values of
index `i + 1`. -/
lemma incDigits_driveNameAux (i : Nat) :
    incDigits (driveNameAux i) = driveNameAux (i + 1) := by
  induction i using Nat.strong_induction_on with
  | _ i ih =>
    rw [driveNameAux]
    split
    next h =>
      by_cases h25 : i = 25
      · subst h25
        rw [incDigits, if_pos rfl, incDigits]
        rw [show (25 : Nat) + 1 = 26 from rfl, driveNameAux, dif_neg (by omega),
          driveNameAux, dif_pos (by omega)]
      · rw [incDigits, if_neg h25, driveNameAux, dif_pos (by omega)]
    · have hsmall : i / 26 - 1 < i := by
        have : i / 26 < i := Nat.div_lt_self (by omega) (by omega)
        omega
      by_cases h25 : i % 26 = 25
      · rw [incDigits, if_pos h25, ih _ hsmall]
        have h1 : i / 26 - 1 + 1 = i / 26 := by omega
        have h2 : (i + 1) % 26 = 0 := by omega
        have h3 : (i + 1) / 26 - 1 = i / 26 := by omega
        rw [h1]
        conv_rhs => rw [driveNameAux, dif_neg (by omega), h2, h3]
      · rw [incDigits, if_neg h25]
        have h2 : (i + 1) % 26 = i % 26 + 1 := by omega
        have h3 : (i + 1) / 26 - 1 = i / 26 - 1 := by omega
        conv_rhs => rw [driveNameAux, dif_neg (by omega), h2, h3]

/-- The drive namer's letter values agree with the increment-generated
sequence. -/
lemma driveNameAux_eq_seqDigits (i : Nat) : driveNameAux i = seqDigits i := by
  induction i with
  | zero => rw [driveNameAux]; rfl
  | succ n ih => rw [seqDigits, ← ih, incDigits_driveNameAux]

/-- The drive name for index `i` is the `i`-th term of the sequence
a, b, …, z, aa, ab, … -/
lemma driveName_eq_seqTerm (i : Nat) : driveName i = seqTerm i := by
  unfold driveName seqTerm
  rw [driveNameAux_eq_seqDigits]

lemma driveNameAux_of_lt {i : Nat} (h : i < 26) : driveNameAux i = [i] := by
  rw [driveNameAux, dif_pos h]

lemma driveNameAux_of_ge {i : Nat} (h : ¬ i < 26) :
    driveNameAux i = i % 26 :: driveNameAux (i / 26 - 1) := by
  rw [driveNameAux, dif_neg h]

lemma driveNameAux_length_mono : ∀ {j i : Nat}, i ≤ j →
    (driveNameAux i).length ≤ (driveNameAux j).length := by
  intro j
  induction j using Nat.strong_induction_on with
  | _ j ih =>
    intro i hij
    by_cases hj : j < 26
    · have hi : i < 26 := by omega
      rw [driveNameAux_of_lt hi, driveNameAux_of_lt hj]
      simp
    · by_cases hi : i < 26
      · rw [driveNameAux_of_lt hi, driveNameAux_of_ge hj]
        simp
      · rw [driveNameAux_of_ge hi, driveNameAux_of_ge hj]
        have hjs : j / 26 - 1 < j := by
          have : j / 26 < j := Nat.div_lt_self (by omega) (by omega)
          omega
        have hle : i / 26 - 1 ≤ j / 26 - 1 := by
          have : i / 26 ≤ j / 26 := Nat.div_le_div_right (by omega)
          omega
        simpa using ih _ hjs hle

lemma lex_append_rel {α} {r : α → α → Prop} :
    ∀ (c : List α) {x y : α}, r x y → List.Lex r (c ++ [x]) (c ++ [y])
  | [], _, _, h => List.Lex.rel h
  | _ :: c, _, _, h => List.Lex.cons (lex_append_rel c h)

lemma lex_append_of_length_eq {α} {r : α → α → Prop} {a b : List α}
    (hlex : List.Lex r a b) (hlen : a.length = b.length) :
    ∀ x y, List.Lex r (a ++ [x]) (b ++ [y]) := by
  induction hlex with
  | nil => simp at hlen
  | cons h ih =>
    intro x y
    exact List.Lex.cons (ih (by simpa using hlen) x y)
  | rel h => intro x y; exact List.Lex.rel h

/-- The indexing order is the shortlex order on the letter-value lists. -/
lemma driveNameAux_lex : ∀ j i : Nat, i < j →
    (driveNameAux i).length = (driveNameAux j).length →
    List.Lex (· < ·) (driveNameAux i).reverse (driveNameAux j).reverse := by
  intro j
  induction j using Nat.strong_induction_on with
  | _ j ih =>
    intro i hij hlen
    by_cases hj : j < 26
    · have hi : i < 26 := by omega
      rw [driveNameAux_of_lt hi, driveNameAux_of_lt hj]
      simp only [List.reverse_singleton]
      exact List.Lex.rel hij
    · by_cases hi : i < 26
      · exfalso
        rw [driveNameAux_of_lt hi, driveNameAux_of_ge hj] at hlen
        have hpos := List.length_pos_of_ne_nil (driveNameAux_ne_nil (j / 26 - 1))
        rw [List.length_singleton, List.length_cons] at hlen
        omega
      · rw [driveNameAux_of_ge hi, driveNameAux_of_ge hj] at hlen ⊢
        simp only [List.reverse_cons]
        have hlen' : (driveNameAux (i / 26 - 1)).length =
            (driveNameAux (j / 26 - 1)).length := by
          simpa using hlen
        have hjs : j / 26 - 1 < j := by
          have : j / 26 < j := Nat.div_lt_self (by omega) (by omega)
          omega
        have hq : i / 26 - 1 ≤ j / 26 - 1 := by
          have : i / 26 ≤ j / 26 := Nat.div_le_div_right (by omega)
          omega
        rcases Nat.lt_or_ge (i / 26 - 1) (j / 26 - 1) with hlt | hge
        · exact lex_append_of_length_eq (ih _ hjs _ hlt hlen') (by simpa using hlen') _ _
        · have heq : i / 26 - 1 = j / 26 - 1 := by omega
          rw [heq]
          apply lex_append_rel
          have hdiv : i / 26 = j / 26 := by omega
          omega

lemma toLetter_toNat {d : Nat} (h : d < 26) : (toLetter d).toNat = 97 + d := by
  interval_cases d <;> decide

lemma toLetter_lt {d₁ d₂ : Nat} (h : d₁ < d₂) (h2 : d₂ < 26) :
    toLetter d₁ < toLetter d₂ := by
  have h1 : d₁ < 26 := by omega
  interval_cases d₁ <;> interval_cases d₂ <;> decide

lemma toLetter_inj {d₁ d₂ : Nat} (h1 : d₁ < 26) (h2 : d₂ < 26)
    (h : toLetter d₁ = toLetter d₂) : d₁ = d₂ := by
  have := congrArg Char.toNat h
  rw [toLetter_toNat h1, toLetter_toNat h2] at this
  omega

lemma map_toLetter_inj : ∀ {A B : List Nat}, (∀ d ∈ A, d < 26) →
    (∀ d ∈ B, d < 26) → A.map toLetter = B.map toLetter → A = B := by
  intro A
  induction A with
  | nil =>
    intro B _ _ h
    cases B with
    | nil => rfl
    | cons b B' => simp at h
  | cons a A' ih =>
    intro B hA hB h
    cases B with
    | nil => simp at h
    | cons b B' =>
      simp only [List.map_cons, List.cons.injEq] at h
      have ha : a = b := toLetter_inj (hA a (List.mem_cons_self a A'))
        (hB b (List.mem_cons_self b B')) h.1
      have := ih (fun d hd => hA d (List.mem_cons_of_mem a hd))
        (fun d hd => hB d (List.mem_cons_of_mem b hd)) h.2
      rw [ha, this]

lemma lex_map_toLetter {A B : List Nat} (h : List.Lex (· < ·) A B) :
    (∀ d ∈ A, d < 26) → (∀ d ∈ B, d < 26) →
    List.Lex (· < ·) (A.map toLetter) (B.map toLetter) := by
  induction h with
  | nil =>
    intro _ _
    simp only [List.map_nil, List.map_cons]
    exact List.Lex.nil
  | cons h ih =>
    intro hA hB
    simp only [List.map_cons]
    exact List.Lex.cons (ih (fun d hd => hA d (List.mem_cons_of_mem _ hd))
      (fun d hd => hB d (List.mem_cons_of_mem _ hd)))
  | rel h =>
    intro hA hB
    simp only [List.map_cons]
    exact List.Lex.rel (toLetter_lt h (hB _ (List.mem_cons_self _ _)))

lemma driveName_length (i : Nat) : (driveName i).length = (driveNameAux i).length := by
  simp [driveName, digitsToString, String.length]

/-! ## Claim C2: the drive namer produces the sequence a, b, …, z, aa, … -/

set_option maxRecDepth 10000 in
/-- C2: for every index `i ≥ 0` the drive namer produces the `i`-th term of
the sequence a, b, …, z, aa, ab, …, az, ba, …, zz, aaa, … (the sequence
generated from "a" by repeated increment), with the claimed concrete
values at 0, 25, 26, 27, 701 and 702. -/
theorem C2_drive_namer_sequence :
    (∀ i : Nat, driveName i = seqTerm i) ∧
    driveName 0 = "a" ∧ driveName 25 = "z" ∧ driveName 26 = "aa" ∧
    driveName 27 = "ab" ∧ driveName 701 = "zz" ∧ driveName 702 = "aaa" :=
  ⟨driveName_eq_seqTerm,
   (driveName_eq_seqTerm 0).trans (by decide),
   (driveName_eq_seqTerm 25).trans (by decide),
   (driveName_eq_seqTerm 26).trans (by decide),
   (driveName_eq_seqTerm 27).trans (by decide),
   (driveName_eq_seqTerm 701).trans (by decide),
   (driveName_eq_seqTerm 702).trans (by decide)⟩

/-! ## Claim C8: injectivity and ordering of drive names -/

set_option maxRecDepth 10000 in
/-- C8 counterexample: the claim's lexicographic clause fails at the pair
(25, 26): `driveName 25 = "z"` does not precede `driveName 26 = "aa"` in
lexicographic string order, because `'a' < 'z'`. -/
theorem C8_counterexample :
    25 < 26 ∧ driveName 25 = "z" ∧ driveName 26 = "aa" ∧
    ¬ driveName 25 < driveName 26 := by
  refine ⟨by omega, (driveName_eq_seqTerm 25).trans (by decide),
    (driveName_eq_seqTerm 26).trans (by decide), ?_⟩
  rw [(driveName_eq_seqTerm 25).trans (by decide : seqTerm 25 = "z"),
    (driveName_eq_seqTerm 26).trans (by decide : seqTerm 26 = "aa"),
    String.lt_iff_toList_lt]
  decide

/-- C8 (amended): the drive namer is injective, and for `i < j` the name of
`i` precedes the name of `j` in the shortlex order on strings — shorter
names first, lexicographic comparison between names of equal length.
(Plain lexicographic order does not match input order: see the
counterexample "z" vs "aa".) -/
theorem C8_drive_namer_amended :
    (∀ i j : Nat, driveName i = driveName j → i = j) ∧
    (∀ i j : Nat, i < j →
      (driveName i).length < (driveName j).length ∨
      ((driveName i).length = (driveName j).length ∧ driveName i < driveName j)) := by
  constructor
  · intro i j h
    unfold driveName digitsToString at h
    have hdata := congrArg String.data h
    simp only at hdata
    have hrev := map_toLetter_inj
      (fun d hd => driveNameAux_lt i d (List.mem_reverse.mp hd))
      (fun d hd => driveNameAux_lt j d (List.mem_reverse.mp hd)) hdata
    exact driveNameAux_injective (List.reverse_injective hrev)
  · intro i j hij
    rw [driveName_length, driveName_length]
    rcases Nat.lt_or_ge (driveNameAux i).length (driveNameAux j).length with hlt | hge
    · exact Or.inl hlt
    · have hle := driveNameAux_length_mono (Nat.le_of_lt hij)
      have heq : (driveNameAux i).length = (driveNameAux j).length := by omega
      refine Or.inr ⟨heq, ?_⟩
      rw [String.lt_iff_toList_lt]
      show List.Lex (· < ·) ((driveNameAux i).reverse.map toLetter)
        ((driveNameAux j).reverse.map toLetter)
      exact lex_map_toLetter (driveNameAux_lex j i hij heq)
        (fun d hd => driveNameAux_lt i d (List.mem_reverse.mp hd))
        (fun d hd => driveNameAux_lt j d (List.mem_reverse.mp hd))

/-- C8 witness: the amended ordering statement applied at the concrete pair
(0, 1). -/
theorem C8_drive_namer_amended_witness :
    0 < 1 ∧ ((driveName 0).length < (driveName 1).length ∨
      ((driveName 0).length = (driveName 1).length ∧ driveName 0 < driveName 1)) :=
  ⟨by omega, C8_drive_namer_amended.2 0 1 (by omega)⟩

/-! ## Lemmas about the document structure -/

lemma topElemsNamed_append (n : String) (a b : List Xml) :
    topElemsNamed n (a ++ b) = topElemsNamed n a ++ topElemsNamed n b := by
  simp [topElemsNamed]

/-- Splitting the domain children into their four chunks. -/
lemma topElemsNamed_domain (n : String) (cfg : Config) (conns : Nat → DataConn)
    (fs : String → Option String) (arch : String) :
    topElemsNamed n (domainChildren cfg conns fs arch) =
      topElemsNamed n
        [Xml.elem "name" [] [Xml.text cfg.guestname],
         Xml.elem "memory" [("unit", "KiB")]
           [Xml.text (toString (cfg.memory / 1024))],
         Xml.elem "currentMemory" [("unit", "KiB")]
           [Xml.text (toString (cfg.memory / 1024))],
         Xml.elem "vcpu" [] [Xml.text (toString cfg.vcpus)]] ++
      topElemsNamed n (cpuElems cfg.cpu) ++
      topElemsNamed n (clockElems cfg.rtc) ++
      topElemsNamed n
        [Xml.elem "os" [] [Xml.elem "type" [("arch", arch)] [Xml.text "hvm"]],
         Xml.elem "features" [] (featureElems cfg.cpu),
         Xml.elem "devices" [] (devicesChildren cfg conns fs)] := by
  unfold domainChildren
  rw [topElemsNamed_append, topElemsNamed_append, topElemsNamed_append]

/-- The `<cpu>` chunk contains no element named `n ≠ "cpu"`. -/
lemma topElemsNamed_cpu_not (c : CpuConfig) (n : String)
    (h : ("cpu" == n) = false) : topElemsNamed n (cpuElems c) = [] := by
  unfold cpuElems topElemsNamed
  split
  · simp [List.filter, isElemNamed, h]
  · rfl

/-- The `<clock>` chunk contains no element named `n ≠ "clock"`. -/
lemma topElemsNamed_clock_not (r : RtcConfig) (n : String)
    (h : ("clock" == n) = false) : topElemsNamed n (clockElems r) = [] := by
  unfold clockElems topElemsNamed
  rcases r with ⟨basis, off⟩
  cases basis
  · rfl
  · simp [List.filter, isElemNamed, h]
  · simp [List.filter, isElemNamed, h]

/-- Filtering the `<clock>` chunk for "clock" keeps it whole. -/
lemma topElemsNamed_clock_self (r : RtcConfig) :
    topElemsNamed "clock" (clockElems r) = clockElems r := by
  unfold clockElems topElemsNamed
  rcases r with ⟨basis, off⟩
  cases basis <;> rfl

/-- Filtering the `<cpu>` chunk for "cpu" keeps it whole. -/
lemma topElemsNamed_cpu_self (c : CpuConfig) :
    topElemsNamed "cpu" (cpuElems c) = cpuElems c := by
  unfold cpuElems topElemsNamed
  split <;> rfl

/-! ## Claim C4: the clock element -/

/-- C4: the `<clock>` element of the document is present iff
`rtc.basis ≠ UNKNOWN`; its attributes are exactly `offset="utc"` for UTC
with zero offset, `offset="variable" basis="utc" adjustment=N` for UTC with
nonzero offset `N`, and `offset="localtime"` for LOCALTIME. -/
theorem C4_clock (cfg : Config) (conns : Nat → DataConn)
    (fs : String → Option String) (arch : String) :
    topElemsNamed "clock" (domainChildren cfg conns fs arch) =
      (match cfg.rtc.basis with
       | RtcBasis.unknown => []
       | RtcBasis.utc =>
         [Xml.elem "clock"
           (if cfg.rtc.offset = 0 then [("offset", "utc")]
            else [("offset", "variable"), ("basis", "utc"),
                  ("adjustment", toString cfg.rtc.offset)]) []]
       | RtcBasis.localtime =>
         [Xml.elem "clock" [("offset", "localtime")] []]) ∧
    (topElemsNamed "clock" (domainChildren cfg conns fs arch) ≠ [] ↔
      cfg.rtc.basis ≠ RtcBasis.unknown) := by
  have heq : topElemsNamed "clock" (domainChildren cfg conns fs arch) =
      clockElems cfg.rtc := by
    rw [topElemsNamed_domain, topElemsNamed_cpu_not cfg.cpu "clock" (by decide),
      topElemsNamed_clock_self]
    show ([] : List Xml) ++ [] ++ clockElems cfg.rtc ++ [] = clockElems cfg.rtc
    simp
  refine ⟨by rw [heq]; rfl, ?_⟩
  rw [heq]
  unfold clockElems
  cases hb : cfg.rtc.basis <;> simp

/-! ## Claim C5: the cpu element -/

/-- C5: the `<cpu>` element is emitted iff at least one of vendor, model,
sockets, cores, threads is set; inside it, `<vendor>` appears iff the
vendor is present, `<model fallback="allow">` iff the model is present, and
a `<topology>` element iff some topology count is nonzero, carrying exactly
the nonzero attributes among sockets, cores, threads, in that order. -/
theorem C5_cpu (cfg : Config) (conns : Nat → DataConn)
    (fs : String → Option String) (arch : String) :
    topElemsNamed "cpu" (domainChildren cfg conns fs arch) =
      (if cfg.cpu.vendor.isSome ∨ cfg.cpu.model.isSome ∨
          cfg.cpu.sockets ≠ 0 ∨ cfg.cpu.cores ≠ 0 ∨ cfg.cpu.threads ≠ 0 then
        [Xml.elem "cpu" [("match", "minimum")]
          ((match cfg.cpu.vendor with
            | some v => [Xml.elem "vendor" [] [Xml.text v]]
            | none => []) ++
           (match cfg.cpu.model with
            | some m => [Xml.elem "model" [("fallback", "allow")] [Xml.text m]]
            | none => []) ++
           (if cfg.cpu.sockets ≠ 0 ∨ cfg.cpu.cores ≠ 0 ∨ cfg.cpu.threads ≠ 0 then
              [Xml.elem "topology"
                ((if cfg.cpu.sockets ≠ 0 then
                    [("sockets", toString cfg.cpu.sockets)] else []) ++
                 (if cfg.cpu.cores ≠ 0 then
                    [("cores", toString cfg.cpu.cores)] else []) ++
                 (if cfg.cpu.threads ≠ 0 then
                    [("threads", toString cfg.cpu.threads)] else []))
                []]
            else []))]
       else []) ∧
    (topElemsNamed "cpu" (domainChildren cfg conns fs arch) = [] ↔
      ¬ (cfg.cpu.vendor.isSome ∨ cfg.cpu.model.isSome ∨
         cfg.cpu.sockets ≠ 0 ∨ cfg.cpu.cores ≠ 0 ∨ cfg.cpu.threads ≠ 0)) := by
  have heq : topElemsNamed "cpu" (domainChildren cfg conns fs arch) =
      cpuElems cfg.cpu := by
    rw [topElemsNamed_domain, topElemsNamed_cpu_self,
      topElemsNamed_clock_not cfg.rtc "cpu" (by decide)]
    show ([] : List Xml) ++ cpuElems cfg.cpu ++ [] ++ [] = cpuElems cfg.cpu
    simp
  refine ⟨by rw [heq]; rfl, ?_⟩
  rw [heq]
  unfold cpuElems
  split
  next h =>
    constructor
    · intro hx; exact absurd hx (by simp)
    · intro hn; exact absurd h hn
  next h =>
    simpa using h

/-! ## Claim C6: memory reporting -/

/-- C6: the `<memory>` and `<currentMemory>` elements of the document carry
identical values, both equal to `memory / 1024` rounded down (the unsigned
64-bit byte count divided by 1024 in integer arithmetic). -/
theorem C6_memory (cfg : Config) (conns : Nat → DataConn)
    (fs : String → Option String) (arch : String) :
    topElemsNamed "memory" (domainChildren cfg conns fs arch) =
      [Xml.elem "memory" [("unit", "KiB")]
        [Xml.text (toString (cfg.memory / 1024))]] ∧
    topElemsNamed "currentMemory" (domainChildren cfg conns fs arch) =
      [Xml.elem "currentMemory" [("unit", "KiB")]
        [Xml.text (toString (cfg.memory / 1024))]] := by
  constructor
  · rw [topElemsNamed_domain, topElemsNamed_cpu_not cfg.cpu "memory" (by decide),
      topElemsNamed_clock_not cfg.rtc "memory" (by decide)]
    show [Xml.elem "memory" [("unit", "KiB")]
        [Xml.text (toString (cfg.memory / 1024))]] ++ [] ++ [] ++ [] = _
    simp
  · rw [topElemsNamed_domain,
      topElemsNamed_cpu_not cfg.cpu "currentMemory" (by decide),
      topElemsNamed_clock_not cfg.rtc "currentMemory" (by decide)]
    show [Xml.elem "currentMemory" [("unit", "KiB")]
        [Xml.text (toString (cfg.memory / 1024))]] ++ [] ++ [] ++ [] = _
    simp

/-- Every fixed-disk element passes the `<disk device="disk">` filter. -/
lemma filter_diskElems (conns : Nat → DataConn) :
    ∀ (disks : List String) (k : Nat),
      List.filter isDiskDevice (diskElems conns k disks) = diskElems conns k disks := by
  intro disks
  induction disks with
  | nil => intro k; rfl
  | cons d rest ih =>
    intro k
    show List.filter isDiskDevice (diskElem k d (conns k) :: diskElems conns (k + 1) rest) = _
    rw [List.filter_cons]
    rw [if_pos (by rfl : isDiskDevice (diskElem k d (conns k)) = true)]
    rw [ih (k + 1)]
    rfl

/-- No removable-media element passes the `<disk device="disk">` filter:
their `device` attribute is `"cdrom"`. -/
lemma filter_removable (r : Option (List String)) :
    List.filter isDiskDevice (removableElems r) = [] := by
  rcases r with _ | rs
  · rfl
  · rw [List.filter_eq_nil_iff]
    intro x hx
    simp only [removableElems, List.mem_map] at hx
    obtain ⟨s, -, rfl⟩ := hx
    intro hx'
    exact Bool.noConfusion ((by rfl :
      isDiskDevice (Xml.elem "disk" [("type", "network"), ("device", "cdrom")]
        [Xml.elem "driver" [("name", "qemu"), ("type", "raw")] [],
         Xml.elem "target" [("dev", s)] []]) = false) ▸ hx')

/-- No interface element passes the `<disk device="disk">` filter. -/
lemma filter_interfaces (cfg : Config) (fs : String → Option String)
    (o : Option (List String)) :
    List.filter isDiskDevice (interfaceElems cfg fs o) = [] := by
  rcases o with _ | ifs
  · rfl
  · rw [List.filter_eq_nil_iff]
    intro x hx
    simp only [interfaceElems, List.mem_map] at hx
    obtain ⟨iface, -, rfl⟩ := hx
    intro hx'
    exact Bool.noConfusion ((by rfl :
      isDiskDevice (interfaceElem cfg fs iface) = false) ▸ hx')

/-- Indexing the fixed-disk loop output. -/
lemma diskElems_get (conns : Nat → DataConn) :
    ∀ (disks : List String) (k n : Nat),
      (diskElems conns k disks)[n]? =
        (disks[n]?).map (fun d => diskElem (k + n) d (conns (k + n))) := by
  intro disks
  induction disks with
  | nil => intro k n; simp [diskElems]
  | cons d rest ih =>
    intro k n
    cases n with
    | zero => simp [diskElems]
    | succ m =>
      show (diskElem k d (conns k) :: diskElems conns (k + 1) rest)[m + 1]? =
        ((d :: rest)[m + 1]?).map
          (fun x => diskElem (k + (m + 1)) x (conns (k + (m + 1))))
      rw [List.getElem?_cons_succ, List.getElem?_cons_succ, ih (k + 1) m]
      rw [show k + 1 + m = k + (m + 1) from by omega]

/-! ## Claim C3: disk target device and port binding -/

/-- C3: the `i`-th emitted `<disk device="disk">` element has target dev
`"sd" + DriveNamer(i)` when `disks[i]` begins with `/`, else `disks[i]`
verbatim when its length is at most 63, else `"sd" + DriveNamer(i)`; and
its `<host>` element carries `port = data_conns[i].nbd_remote_port`. -/
theorem C3_disk_target_and_port (cfg : Config) (conns : Nat → DataConn)
    (fs : String → Option String) (i : Nat) (d : String)
    (h : cfg.disks[i]? = some d) :
    (List.filter isDiskDevice (devicesChildren cfg conns fs))[i]? =
      some (Xml.elem "disk" [("type", "network"), ("device", "disk")]
        [Xml.elem "driver" [("name", "qemu"), ("type", "raw")] [],
         Xml.elem "source" [("protocol", "nbd")]
           [Xml.elem "host" [("name", "localhost"),
             ("port", toString (conns i).nbd_remote_port)] []],
         Xml.elem "target" [("dev",
           if d.data.head? = some '/' then "sd" ++ driveName i
           else if d.data.length ≤ 63 then d
           else "sd" ++ driveName i)] []]) := by
  unfold devicesChildren
  rw [List.filter_append, List.filter_append, filter_diskElems,
    filter_removable, filter_interfaces, List.append_nil, List.append_nil,
    diskElems_get, h]
  show some (diskElem (0 + i) d (conns (0 + i))) = _
  rw [Nat.zero_add]
  rfl

/-- C3 witness: one absolute-path disk `"/dev/sda"` with port 10000 is
emitted as `<target dev="sda"/>` with `<host port="10000"/>`. -/
theorem C3_disk_target_and_port_witness :
    (mkConfig ["/dev/sda"] none none).disks[0]? = some "/dev/sda" ∧
    (List.filter isDiskDevice
      (devicesChildren (mkConfig ["/dev/sda"] none none)
        (fun _ => ⟨10000⟩) (fun _ => none)))[0]? =
      some (Xml.elem "disk" [("type", "network"), ("device", "disk")]
        [Xml.elem "driver" [("name", "qemu"), ("type", "raw")] [],
         Xml.elem "source" [("protocol", "nbd")]
           [Xml.elem "host" [("name", "localhost"), ("port", "10000")] []],
         Xml.elem "target" [("dev", "sda")] []]) := by
  refine ⟨rfl, ?_⟩
  have h := C3_disk_target_and_port (mkConfig ["/dev/sda"] none none)
    (fun _ => ⟨10000⟩) (fun _ => none) 0 "/dev/sda" rfl
  rw [h, (driveName_eq_seqTerm 0).trans (by decide : seqTerm 0 = "a")]
  rfl

/-! ## Claim C10: an empty-string disk entry -/

/-- C10: a disk entry that is the empty string is handled without failure:
`""` does not begin with `/` and has length `0 ≤ 63`, so the verbatim
branch applies and the disk's target element is emitted as
`<target dev=""/>`. -/
theorem C10_empty_disk_entry (cfg : Config) (conns : Nat → DataConn)
    (fs : String → Option String) (i : Nat)
    (h : cfg.disks[i]? = some "") :
    (List.filter isDiskDevice (devicesChildren cfg conns fs))[i]? =
      some (Xml.elem "disk" [("type", "network"), ("device", "disk")]
        [Xml.elem "driver" [("name", "qemu"), ("type", "raw")] [],
         Xml.elem "source" [("protocol", "nbd")]
           [Xml.elem "host" [("name", "localhost"),
             ("port", toString (conns i).nbd_remote_port)] []],
         Xml.elem "target" [("dev", "")] []]) := by
  unfold devicesChildren
  rw [List.filter_append, List.filter_append, filter_diskElems,
    filter_removable, filter_interfaces, List.append_nil, List.append_nil,
    diskElems_get, h]
  show some (diskElem (0 + i) "" (conns (0 + i))) = _
  rw [Nat.zero_add]
  rfl

/-- C10 witness: the empty-disk theorem at the one-disk configuration
`disks = [""]` with port 7. -/
theorem C10_empty_disk_entry_witness :
    (mkConfig [""] none none).disks[0]? = some "" ∧
    (List.filter isDiskDevice
      (devicesChildren (mkConfig [""] none none)
        (fun _ => ⟨7⟩) (fun _ => none)))[0]? =
      some (Xml.elem "disk" [("type", "network"), ("device", "disk")]
        [Xml.elem "driver" [("name", "qemu"), ("type", "raw")] [],
         Xml.elem "source" [("protocol", "nbd")]
           [Xml.elem "host" [("name", "localhost"), ("port", "7")] []],
         Xml.elem "target" [("dev", "")] []]) :=
  ⟨rfl, C10_empty_disk_entry (mkConfig [""] none none) (fun _ => ⟨7⟩)
    (fun _ => none) 0 rfl⟩

/-! ## Claim C7: the MAC reader -/

/-- C7: for every interface the MAC value is looked up at
`/sys/class/net/<iface>/address`; when the read fails the interface element
is still produced, just without a `<mac>` child (non-fatal); when it
succeeds exactly one trailing newline is removed — not all trailing
whitespace — and the element carries `<mac address="…"/>` with that
value. -/
theorem C7_mac_reader (cfg : Config) (fs : String → Option String)
    (iface : String) :
    (fs ("/sys/class/net/" ++ iface ++ "/address") = none →
      interfaceElem cfg fs iface = Xml.elem "interface" [("type", "network")]
        [Xml.elem "source" [("network", map_interface_to_network cfg iface)] [],
         Xml.elem "target" [("dev", iface)] []]) ∧
    (∀ contents, fs ("/sys/class/net/" ++ iface ++ "/address") = some contents →
      interfaceElem cfg fs iface = Xml.elem "interface" [("type", "network")]
        [Xml.elem "source" [("network", map_interface_to_network cfg iface)] [],
         Xml.elem "target" [("dev", iface)] [],
         Xml.elem "mac" [("address", stripTrailingNewline contents)] []]) ∧
    (∀ s : String, stripTrailingNewline (s.push '\n') = s) ∧
    stripTrailingNewline "ab\n\n" = "ab\n" ∧
    stripTrailingNewline "ab \t" = "ab \t" := by
  refine ⟨?_, ?_, ?_, by decide, by decide⟩
  · intro h
    unfold interfaceElem macRead
    rw [h]
    rfl
  · intro contents h
    unfold interfaceElem macRead
    rw [h]
    rfl
  · intro s
    rcases s with ⟨l⟩
    show stripTrailingNewline (String.mk (l ++ ['\n'])) = String.mk l
    unfold stripTrailingNewline
    simp [List.getLast?_concat]

/-- The filesystem oracle for the C7 witness: only eth0 has a readable
address file, whose contents end in a newline. -/
def fsWitness : String → Option String := fun p =>
  if p = "/sys/class/net/eth0/address" then some "aa:bb:cc:dd:ee:ff\n" else none

/-- C7 witness: the MAC-reader theorem applied to `fsWitness` and `"eth0"`,
yielding a `<mac>` child with the newline stripped. -/
theorem C7_mac_reader_witness :
    fsWitness "/sys/class/net/eth0/address" = some "aa:bb:cc:dd:ee:ff\n" ∧
    interfaceElem (mkConfig [] none (some ["eth0"])) fsWitness "eth0" =
      Xml.elem "interface" [("type", "network")]
        [Xml.elem "source" [("network", "default")] [],
         Xml.elem "target" [("dev", "eth0")] [],
         Xml.elem "mac" [("address", "aa:bb:cc:dd:ee:ff")] []] := by
  refine ⟨rfl, ?_⟩
  have h := (C7_mac_reader (mkConfig [] none (some ["eth0"])) fsWitness
    "eth0").2.1 "aa:bb:cc:dd:ee:ff\n" (by rfl)
  rw [h]
  rfl

/-! ## Claim C9: determinism -/

/-- C9: two runs of the composer on equal configurations, equal data
connections, equal host-file contents and the same architecture, program
name and version constants produce the same document tree; since the
output file is a fixed serialisation of this tree, the two files are
byte-identical. -/
theorem C9_deterministic (cfg₁ cfg₂ : Config) (conns₁ conns₂ : Nat → DataConn)
    (fs₁ fs₂ : String → Option String)
    (arch₁ arch₂ pn₁ pn₂ ver₁ ver₂ : String)
    (hc : cfg₁ = cfg₂) (hd : ∀ i, conns₁ i = conns₂ i)
    (hf : ∀ p, fs₁ p = fs₂ p) (ha : arch₁ = arch₂) (hp : pn₁ = pn₂)
    (hv : ver₁ = ver₂) :
    generate_physical_xml cfg₁ conns₁ fs₁ arch₁ pn₁ ver₁ =
      generate_physical_xml cfg₂ conns₂ fs₂ arch₂ pn₂ ver₂ := by
  have hd' : conns₁ = conns₂ := funext hd
  have hf' : fs₁ = fs₂ := funext hf
  subst hc hd' hf' ha hp hv
  rfl

/-- C9 witness: determinism at a concrete input. -/
theorem C9_deterministic_witness :
    generate_physical_xml (mkConfig ["/dev/sda"] none none) (fun _ => ⟨1⟩)
        (fun _ => none) "x86_64" "virt-p2v" "1.42.0" =
      generate_physical_xml (mkConfig ["/dev/sda"] none none) (fun _ => ⟨1⟩)
        (fun _ => none) "x86_64" "virt-p2v" "1.42.0" :=
  C9_deterministic _ _ _ _ _ _ _ _ _ _ _ _ rfl (fun _ => rfl) (fun _ => rfl)
    rfl rfl rfl
